import Mathlib

/-!
The colour oscillator and the frame renderer of `modeset.c`.

A shallow embedding of `src/modeset.c` (`next_color`, `modeset_draw`, the loop of `main`)
and the properties of it that the specification states.

Conventions of the embedding:
* `uint8_t` and `unsigned int` values are natural numbers; every C operation that can
  leave the type's range is followed by an explicit `% 2 ^ 32` or `% 256`;
* a C operation with undefined behaviour (`% 0`, a store outside the allocated block)
  makes the embedded function return `none`;
* `rand()` is the only source of non-determinism of `next_color`; its result is passed in
  as the argument `x`.  Inside `modeset_draw` the generator is a function
  `gen seed k`, the value of the `k`-th `rand()` call after `srand(seed)`.
-/

namespace Modeset

/-! ## `next_color` (lines 114-125) -/

/-- Line 118: `cur + (*up ? 1 : -1) * (rand() % mod)` stored into the `uint8_t next`.
`mod` is `unsigned int`, so the product and the sum are computed in 32-bit unsigned
arithmetic (the factor `-1` converts to `2 ^ 32 - 1`) and the store keeps the low 8 bits.
`x` is the value returned by `rand()`. -/
def candidate (up : Bool) (cur mod x : Nat) : Nat :=
  (cur + ((if up then 1 else 2 ^ 32 - 1) * (x % mod)) % 2 ^ 32) % 2 ^ 32 % 256

/-- Line 119: the condition `(*up && next < cur) || (!*up && next > cur)`. -/
def flip_test (up : Bool) (next cur : Nat) : Bool :=
  (up && decide (next < cur)) || (!up && decide (next > cur))

/-- The function `next_color(bool *up, uint8_t cur, unsigned int mod)` with the `rand()` result `x`.
The result is the pair (value of `*up` after the call, returned `uint8_t`);
`none` is the undefined `rand() % 0`. -/
def next_color (up : Bool) (cur mod x : Nat) : Option (Bool × Nat) :=
  if mod = 0 then none
  else
    let next := candidate up cur mod x
    if flip_test up next cur then some (!up, cur) else some (up, next)

/-- Successive `next_color` calls with one step bound, each fed the flag and the value
left by the call before it; `xs` are the `rand()` results.  The result lists the
(flag, value) pair after each call. -/
def next_color_run (mod : Nat) : List Nat → Bool × Nat → Option (List (Bool × Nat))
  | [], _ => some []
  | x :: xs, st =>
    match next_color st.1 st.2 mod x with
    | none => none
    | some st' => (next_color_run mod xs st').map (fun rest => st' :: rest)

/-! ## Program state -/

/-- One store of the fill loop: the loop counters, the cell offset from the block base
and the value stored. -/
structure WriteEvent where
  row : Nat
  col : Nat
  off : Nat
  val : Nat
deriving DecidableEq

/-- The globals of the program and of the C library that `modeset_draw` reads or writes.
`buf` is the block allocated in `main` (line 87) as 32-bit cells, `ptr` the global `ptr`
as a cell offset from the start of that block, `seed`/`pos` the state of the `rand()`
generator (last `srand` argument, number of draws since).  `writes` is a ghost history
of the stores, oldest first. -/
structure State where
  buf : List Nat
  ptr : Nat
  seed : Nat
  pos : Nat
  writes : List WriteEvent
deriving DecidableEq

/-- A `struct timeval` as filled by `gettimeofday`. -/
structure Timeval where
  tv_sec : Int
  tv_usec : Int
deriving DecidableEq

/-- The locals `r, g, b, r_up, g_up, b_up` of `modeset_draw`. -/
structure Channels where
  r : Nat
  g : Nat
  b : Nat
  r_up : Bool
  g_up : Bool
  b_up : Bool
deriving DecidableEq

/-- What the environment supplies to one call of `modeset_draw`: the value of
`time(NULL)` and the two `gettimeofday` readings. -/
structure FrameInput where
  now : Nat
  t1 : Timeval
  t2 : Timeval
deriving DecidableEq

/-- The call `srand(seed)`; the argument is an `unsigned int`. -/
def srand (seed : Nat) (s : State) : State :=
  { s with seed := seed % 2 ^ 32, pos := 0 }

/-- The call `rand()`: the next value of the sequence started by the last `srand`. -/
def rand (gen : Nat → Nat → Nat) (s : State) : Nat × State :=
  (gen s.seed s.pos, { s with pos := s.pos + 1 })

/-! ## `modeset_draw` (lines 147-184) -/

/-- Line 172, right-hand side: `0xFF000000 | (r << 16) | (g << 8) | b` as a `uint32_t`. -/
def pixel (r g b : Nat) : Nat :=
  (0xFF000000 ||| (r <<< 16) ||| (g <<< 8) ||| b) % 2 ^ 32

/-- Lines 172-173, the body of the inner loop: `*ptr = v; ptr += 1;`.
A store outside the block is undefined. -/
def store (v row col : Nat) (s : State) : Option State :=
  if s.ptr < s.buf.length then
    some { s with buf := s.buf.set s.ptr v,
                  ptr := s.ptr + 1,
                  writes := s.writes ++ [⟨row, col, s.ptr, v⟩] }
  else none

/-- The loop `for (i = 0; i < n; ++i) body(i)`. -/
def for_upto (body : Nat → State → Option State) : Nat → State → Option State
  | 0, s => some s
  | n + 1, s => (for_upto body n s).bind (body n)

/-- Lines 170-176: the nested loop storing `v` into `768 * 1024` successive cells. -/
def fill (v : Nat) (s : State) : Option State :=
  for_upto (fun i => for_upto (fun j => store v i j) 1024) 768 s

/-- Lines 156-160: reseed the generator from the clock and draw the three intensities;
all three flags start ascending. -/
def seed_colors (gen : Nat → Nat → Nat) (now : Nat) (s : State) : Channels × State :=
  let s0 := srand now s
  let d1 := rand gen s0
  let d2 := rand gen d1.2
  let d3 := rand gen d2.2
  (⟨d1.1 % 0xff, d2.1 % 0xff, d3.1 % 0xff, true, true, true⟩, d3.2)

/-- Lines 164-166: one `next_color` call per channel, with step bounds 20, 10 and 5. -/
def step_colors (gen : Nat → Nat → Nat) (c : Channels) (s : State) : Option (Channels × State) :=
  let d1 := rand gen s
  match next_color c.r_up c.r 20 d1.1 with
  | none => none
  | some nr =>
    let d2 := rand gen d1.2
    match next_color c.g_up c.g 10 d2.1 with
    | none => none
    | some ng =>
      let d3 := rand gen d2.2
      match next_color c.b_up c.b 5 d3.1 with
      | none => none
      | some nb => some (⟨nr.2, ng.2, nb.2, nr.1, ng.1, nb.1⟩, d3.2)

/-- Lines 162, 170-176 and 182: save the pointer, run the nested loop with the colour
`(r, g, b)`, restore the pointer. -/
def fill_pass (r g b : Nat) (s : State) : Option State :=
  let base_ptr := s.ptr
  (fill (pixel r g b) s).map (fun s' => { s' with ptr := base_ptr })

/-- Lines 178-179: the elapsed time in milliseconds.  The `double` arithmetic of the
source is idealised as exact rational arithmetic. -/
def elapsedTime (t1 t2 : Timeval) : ℚ :=
  ((t2.tv_sec - t1.tv_sec : Int) : ℚ) * 1000 + ((t2.tv_usec - t1.tv_usec : Int) : ℚ) / 1000

/-- The function `modeset_draw`.  The result is the state after the call together
with the number printed by line 180. -/
def modeset_draw (gen : Nat → Nat → Nat) (inp : FrameInput) (s : State) : Option (State × ℚ) :=
  let sc := seed_colors gen inp.now s
  match step_colors gen sc.1 sc.2 with
  | none => none
  | some (c, s1) =>
    match fill_pass c.r c.g c.b s1 with
    | none => none
    | some s2 => some (s2, elapsedTime inp.t1 inp.t2)

/-- Lines 91-93 of `main`: the first `inputs.length` iterations of `while (true)`. -/
def main_loop (gen : Nat → Nat → Nat) : List FrameInput → State → Option State
  | [], s => some s
  | inp :: rest, s =>
    match modeset_draw gen inp s with
    | none => none
    | some (s', _) => main_loop gen rest s'

/-- The relation "`t` is `s` after `n` successive stores of `v` from `s.ptr` on, all inside
the block, logged as `f 0, ..., f (n - 1)`": the pointer has advanced by `n`, the `n` cells
from `s.ptr` hold `v`, all other cells and the generator are as in `s`. -/
def Written (v : Nat) (f : Nat → WriteEvent) (s : State) (n : Nat) (t : State) : Prop :=
  s.ptr + n ≤ s.buf.length ∧
  t.ptr = s.ptr + n ∧
  t.buf.length = s.buf.length ∧
  (∀ k, t.buf[k]? = if s.ptr ≤ k ∧ k < s.ptr + n then some v else s.buf[k]?) ∧
  t.seed = s.seed ∧ t.pos = s.pos ∧
  t.writes = s.writes ++ (List.range n).map f

/-- The log of a row-major fill of `n` cells of a `w`-wide buffer from offset `base`:
the `k`-th store belongs to row `k / w`, column `k % w`, and goes to offset `base + k`. -/
def row_major (w base v : Nat) (k : Nat) : WriteEvent :=
  ⟨k / w, k % w, base + k, v⟩

/-! ## Arithmetic of the candidate -/

theorem candidate_up (cur mod x : Nat) :
    candidate true cur mod x = (cur + x % mod) % 256 := by
  unfold candidate
  simp only [if_true, one_mul]
  omega

theorem candidate_down (cur mod x : Nat) :
    candidate false cur mod x = (cur + 255 * ((x % mod) % 256)) % 256 := by
  unfold candidate
  norm_num
  omega

theorem candidate_lt (up : Bool) (cur mod x : Nat) : candidate up cur mod x < 256 := by
  unfold candidate
  omega

theorem next_color_eq (up : Bool) (cur mod x : Nat) (hmod : 1 ≤ mod) :
    next_color up cur mod x =
      if flip_test up (candidate up cur mod x) cur then some (!up, cur)
      else some (up, candidate up cur mod x) := by
  unfold next_color
  rw [if_neg (by omega)]

/-- One call moves the value by at most `mod - 1`, keeps it below 256, and holds it
when the flag changes. -/
theorem next_color_step_bound (up : Bool) (cur mod x : Nat) (hcur : cur < 256)
    (hmod : 1 ≤ mod) :
    ∃ up' v, next_color up cur mod x = some (up', v) ∧ v < 256 ∧
      |(v : Int) - (cur : Int)| ≤ (mod : Int) - 1 ∧ (up' ≠ up → v = cur) := by
  have hm : x % mod < mod := Nat.mod_lt _ (by omega)
  rw [next_color_eq up cur mod x hmod]
  cases up
  · rw [candidate_down]
    by_cases h : cur < (cur + 255 * ((x % mod) % 256)) % 256
    · have hf : flip_test false ((cur + 255 * ((x % mod) % 256)) % 256) cur = true := by
        simp [flip_test, h]
      rw [hf]
      refine ⟨_, _, rfl, hcur, ?_, fun _ => rfl⟩
      simp; omega
    · have hf : flip_test false ((cur + 255 * ((x % mod) % 256)) % 256) cur = false := by
        simp [flip_test, h]
      rw [hf]
      refine ⟨_, _, rfl, by omega, ?_, fun h' => absurd rfl h'⟩
      rw [abs_le]; omega
  · rw [candidate_up]
    by_cases h : (cur + x % mod) % 256 < cur
    · have hf : flip_test true ((cur + x % mod) % 256) cur = true := by
        simp [flip_test, h]
      rw [hf]
      refine ⟨_, _, rfl, hcur, ?_, fun _ => rfl⟩
      simp; omega
    · have hf : flip_test true ((cur + x % mod) % 256) cur = false := by
        simp [flip_test, h]
      rw [hf]
      refine ⟨_, _, rfl, by omega, ?_, fun h' => absurd rfl h'⟩
      rw [abs_le]; omega

/-! ## The colour oscillator -/

/-- C1: whenever a call of `next_color` (step bound at least 1, any draw) inverts the
direction flag, the value it returns is `cur` unchanged; the flip branch is taken exactly
when the test of line 119 holds, and otherwise the flag is left as it was and the candidate
is returned. -/
theorem next_color_flip_holds_value (up : Bool) (cur mod x : Nat) (hmod : 1 ≤ mod) :
    ∃ up' v, next_color up cur mod x = some (up', v) ∧
      (up' = !up → v = cur) ∧
      (flip_test up (candidate up cur mod x) cur = true → up' = !up ∧ v = cur) ∧
      (flip_test up (candidate up cur mod x) cur = false →
        up' = up ∧ v = candidate up cur mod x) := by
  rw [next_color_eq up cur mod x hmod]
  cases hf : flip_test up (candidate up cur mod x) cur
  · refine ⟨up, candidate up cur mod x, by simp, ?_, by simp, by simp⟩
    intro h
    cases up <;> simp at h
  · exact ⟨!up, cur, by simp, by simp, by simp, by simp⟩

/-- Witness of C1 at the specification's example: `cur = 250`, ascending, bound 20, draw 15
gives 250 with the flag descending. -/
theorem next_color_flip_holds_value_witness :
    1 ≤ 20 ∧ next_color true 250 20 15 = some (false, 250) ∧
    ∃ up' v, next_color true 250 20 15 = some (up', v) ∧
      (up' = !true → v = 250) ∧
      (flip_test true (candidate true 250 20 15) 250 = true → up' = !true ∧ v = 250) ∧
      (flip_test true (candidate true 250 20 15) 250 = false →
        up' = true ∧ v = candidate true 250 20 15) :=
  ⟨by decide, by decide, next_color_flip_holds_value true 250 20 15 (by decide)⟩

/-- C2, as stated, fails for a step bound above 256: ascending from 0 with bound 257 and
draw 256 the unbounded sum is 256 > 255 but the flag stays ascending; descending from 0
the unbounded difference is -256 < 0 but the flag stays descending. -/
theorem next_color_flip_iff_counterexample :
    (0 : Nat) < 256 ∧ 1 ≤ 257 ∧ 256 % 257 < 257 ∧
    next_color true 0 257 256 = some (true, 0) ∧ (255 : Int) < (0 : Nat) + (256 % 257 : Nat) ∧
    next_color false 0 257 256 = some (false, 0) ∧ ((0 : Nat) : Int) - (256 % 257 : Nat) < 0 := by
  decide

/-- C2 (amended): for a step bound between 1 and 256 the flag is inverted exactly when
the step would leave `[0, 255]`: ascending with `cur + m > 255`, or descending with
`cur - m < 0`, where `m = x % mod` and the sum and difference are unbounded integers. -/
theorem next_color_flip_iff (up : Bool) (cur mod x : Nat) (hcur : cur < 256)
    (hmod : 1 ≤ mod) (hmod' : mod ≤ 256) :
    ∃ up' v, next_color up cur mod x = some (up', v) ∧
      (up' = !up ↔
        (up = true ∧ (255 : Int) < (cur : Int) + ((x % mod : Nat) : Int)) ∨
        (up = false ∧ (cur : Int) - ((x % mod : Nat) : Int) < 0)) := by
  have hm : x % mod < mod := Nat.mod_lt _ (by omega)
  rw [next_color_eq up cur mod x hmod]
  cases up
  · rw [candidate_down]
    by_cases h : cur < (cur + 255 * ((x % mod) % 256)) % 256
    · have hf : flip_test false ((cur + 255 * ((x % mod) % 256)) % 256) cur = true := by
        simp [flip_test, h]
      rw [hf]
      refine ⟨_, _, rfl, ?_⟩
      simp; omega
    · have hf : flip_test false ((cur + 255 * ((x % mod) % 256)) % 256) cur = false := by
        simp [flip_test, h]
      rw [hf]
      refine ⟨_, _, rfl, ?_⟩
      simp; omega
  · rw [candidate_up]
    by_cases h : (cur + x % mod) % 256 < cur
    · have hf : flip_test true ((cur + x % mod) % 256) cur = true := by
        simp [flip_test, h]
      rw [hf]
      refine ⟨_, _, rfl, ?_⟩
      simp; omega
    · have hf : flip_test true ((cur + x % mod) % 256) cur = false := by
        simp [flip_test, h]
      rw [hf]
      refine ⟨_, _, rfl, ?_⟩
      simp; omega

/-- Witness of the amended C2: bound 20, `cur = 250`, draw 15. -/
theorem next_color_flip_iff_witness :
    (250 : Nat) < 256 ∧ 1 ≤ 20 ∧ 20 ≤ 256 ∧
    ∃ up' v, next_color true 250 20 15 = some (up', v) ∧
      (up' = !true ↔
        (true = true ∧ (255 : Int) < ((250 : Nat) : Int) + ((15 % 20 : Nat) : Int)) ∨
        (true = false ∧ ((250 : Nat) : Int) - ((15 % 20 : Nat) : Int) < 0)) :=
  ⟨by decide, by decide, by decide,
    next_color_flip_iff true 250 20 15 (by decide) (by decide) (by decide)⟩

/-- C3: with `m = x % mod` and a step bound of at least 1, an ascending call with
`cur + m ≤ 255` returns exactly `cur + m` and stays ascending; a descending call on an
8-bit `cur` with `m ≤ cur` returns exactly `cur - m` and stays descending. -/
theorem next_color_in_range_step (cur mod x : Nat) (hmod : 1 ≤ mod) :
    (cur + x % mod ≤ 255 → next_color true cur mod x = some (true, cur + x % mod)) ∧
    (cur < 256 → x % mod ≤ cur → next_color false cur mod x = some (false, cur - x % mod)) := by
  constructor
  · intro h
    rw [next_color_eq true cur mod x hmod, candidate_up]
    have hc : (cur + x % mod) % 256 = cur + x % mod := Nat.mod_eq_of_lt (by omega)
    have hf : flip_test true (cur + x % mod) cur = false := by simp [flip_test]
    rw [hc, hf]
    rfl
  · intro hcur h
    rw [next_color_eq false cur mod x hmod, candidate_down]
    have hc : (cur + 255 * ((x % mod) % 256)) % 256 = cur - x % mod := by omega
    have hf : flip_test false (cur - x % mod) cur = false := by simp [flip_test]
    rw [hc, hf]
    rfl

/-- Witness of C3 at the specification's example: `cur = 100`, ascending, bound 20,
draw 15 gives 115 = 0x73, which is bits 23-16 of the pixel; a draw of 0 returns `cur`. -/
theorem next_color_in_range_step_witness :
    1 ≤ 20 ∧ 100 + 15 % 20 ≤ 255 ∧ 100 < 256 ∧ 15 % 20 ≤ 100 ∧ 100 + 15 % 20 = 0x73 ∧
    (pixel (100 + 15 % 20) 7 9 >>> 16) &&& 0xFF = 0x73 ∧
    next_color true 100 20 15 = some (true, 100 + 15 % 20) ∧
    next_color false 100 20 15 = some (false, 100 - 15 % 20) ∧
    next_color true 100 20 0 = some (true, 100 + 0 % 20) ∧
    next_color false 100 20 0 = some (false, 100 - 0 % 20) :=
  ⟨by decide, by decide, by decide, by decide, by decide, by decide,
    (next_color_in_range_step 100 20 15 (by decide)).1 (by decide),
    (next_color_in_range_step 100 20 15 (by decide)).2 (by decide) (by decide),
    (next_color_in_range_step 100 20 0 (by decide)).1 (by decide),
    (next_color_in_range_step 100 20 0 (by decide)).2 (by decide) (by decide)⟩

/-- C7: for an 8-bit `cur`, either flag, a step bound of at least 1 and any value of
`rand()`, `next_color` returns (it is never `none`) and the value returned is in
`[0, 255]`. -/
theorem next_color_total_in_range (up : Bool) (cur mod x : Nat) (hcur : cur < 256)
    (hmod : 1 ≤ mod) :
    ∃ up' v, next_color up cur mod x = some (up', v) ∧ 0 ≤ v ∧ v ≤ 255 := by
  obtain ⟨up', v, h, hv, _, _⟩ := next_color_step_bound up cur mod x hcur hmod
  exact ⟨up', v, h, Nat.zero_le v, by omega⟩

/-- Witness of C7: `cur = 255`, descending, bound 1, draw `2 ^ 31 - 1`. -/
theorem next_color_total_in_range_witness :
    255 < 256 ∧ 1 ≤ 1 ∧
    ∃ up' v, next_color false 255 1 2147483647 = some (up', v) ∧ 0 ≤ v ∧ v ≤ 255 :=
  ⟨by decide, by decide, next_color_total_in_range false 255 1 2147483647 (by decide) (by decide)⟩

/-- C8: along any sequence of successive `next_color` calls with one step bound of at
least 1, started at an 8-bit value, every call returns, and between the (flag, value) pair
passed to a call and the pair it leaves the value moves by at most `mod - 1` (so by at most
`mod`) and does not move at all when the flag is inverted. -/
theorem next_color_run_jump_bound (mod : Nat) (hmod : 1 ≤ mod) (xs : List Nat) :
    ∀ (up : Bool) (cur : Nat), cur < 256 →
      ∃ tr, next_color_run mod xs (up, cur) = some tr ∧ tr.length = xs.length ∧
        List.Chain
          (fun a b : Bool × Nat =>
            |(b.2 : Int) - (a.2 : Int)| ≤ (mod : Int) - 1 ∧
            |(b.2 : Int) - (a.2 : Int)| ≤ (mod : Int) ∧
            (b.1 ≠ a.1 → |(b.2 : Int) - (a.2 : Int)| = 0))
          (up, cur) tr := by
  induction xs with
  | nil =>
    intro up cur _
    exact ⟨[], rfl, rfl, List.Chain.nil⟩
  | cons x xs ih =>
    intro up cur hcur
    obtain ⟨up', v, h, hv, hd, hflip⟩ := next_color_step_bound up cur mod x hcur hmod
    obtain ⟨tr, htr, hlen, hch⟩ := ih up' v hv
    refine ⟨(up', v) :: tr, ?_, by simp [hlen], List.Chain.cons ⟨hd, ?_, ?_⟩ hch⟩
    · simp [next_color_run, h, htr]
    · exact le_trans hd (by omega)
    · intro hne
      have : v = cur := hflip hne
      simp [this]

/-- Witness of C8: bound 20 from `cur = 250` ascending, draws 15, 3, 19: the run is
hold-and-flip at 250, then 247, then 228. -/
theorem next_color_run_jump_bound_witness :
    1 ≤ 20 ∧ 250 < 256 ∧
    next_color_run 20 [15, 3, 19] (true, 250) = some [(false, 250), (false, 247), (false, 228)] ∧
    ∃ tr, next_color_run 20 [15, 3, 19] (true, 250) = some tr ∧ tr.length = [15, 3, 19].length ∧
      List.Chain
        (fun a b : Bool × Nat =>
          |(b.2 : Int) - (a.2 : Int)| ≤ ((20 : Nat) : Int) - 1 ∧
          |(b.2 : Int) - (a.2 : Int)| ≤ ((20 : Nat) : Int) ∧
          (b.1 ≠ a.1 → |(b.2 : Int) - (a.2 : Int)| = 0))
        (true, 250) tr :=
  ⟨by decide, by decide, by decide,
    next_color_run_jump_bound 20 (by decide) [15, 3, 19] true 250 (by decide)⟩

/-! ## The fill loop -/

theorem written_zero (v : Nat) (f : Nat → WriteEvent) (s : State)
    (h : s.ptr ≤ s.buf.length) : Written v f s 0 s := by
  refine ⟨by omega, rfl, rfl, ?_, rfl, rfl, by simp⟩
  intro k
  rw [if_neg (by omega)]

theorem store_written (v i j : Nat) (s : State) (h : s.ptr < s.buf.length) :
    ∃ t, store v i j s = some t ∧ Written v (fun _ => ⟨i, j, s.ptr, v⟩) s 1 t := by
  unfold store
  rw [if_pos h]
  refine ⟨_, rfl, by omega, rfl, by simp, ?_, rfl, rfl, by simp⟩
  intro k
  by_cases hk : s.ptr = k
  · subst hk
    simp [h]
  · simp only [List.getElem?_set_ne hk]
    rw [if_neg (by omega)]

theorem written_trans {v : Nat} {f g : Nat → WriteEvent} {s t u : State} {a b : Nat}
    (h1 : Written v f s a t) (h2 : Written v g t b u) (hg : ∀ j, j < b → g j = f (a + j)) :
    Written v f s (a + b) u := by
  obtain ⟨_, p1, l1, b1, s1, r1, w1⟩ := h1
  obtain ⟨hb, p2, l2, b2, s2, r2, w2⟩ := h2
  refine ⟨by omega, by omega, by omega, ?_, by rw [s2, s1], by rw [r2, r1], ?_⟩
  · intro k
    rw [b2 k, b1 k]
    by_cases hk : t.ptr ≤ k ∧ k < t.ptr + b
    · rw [if_pos hk, if_pos (by omega)]
    · rw [if_neg hk]
      by_cases hk' : s.ptr ≤ k ∧ k < s.ptr + a
      · rw [if_pos hk', if_pos (by omega)]
      · rw [if_neg hk', if_neg (by omega)]
  · rw [w2, w1, List.range_add, List.map_append, List.map_map, List.append_assoc]
    congr 2
    apply List.map_congr_left
    intro j hj
    exact hg j (List.mem_range.mp hj)

/-- The inner loop: `n` stores of row `i`. -/
theorem fill_row_written (v i : Nat) (n : Nat) (s : State) (h : s.ptr + n ≤ s.buf.length) :
    ∃ t, for_upto (fun j => store v i j) n s = some t ∧
      Written v (fun j => ⟨i, j, s.ptr + j, v⟩) s n t := by
  induction n with
  | zero => exact ⟨s, rfl, written_zero _ _ _ (by omega)⟩
  | succ n ih =>
    obtain ⟨t, ht, hw⟩ := ih (by omega)
    have hp : t.ptr = s.ptr + n := hw.2.1
    have hl : t.buf.length = s.buf.length := hw.2.2.1
    obtain ⟨u, hu, hw'⟩ := store_written v i n t (by omega)
    refine ⟨u, ?_, written_trans hw hw' ?_⟩
    · simp [for_upto, ht, hu]
    · intro j hj
      have : j = 0 := by omega
      subst this
      simp [hp]

/-- The outer loop: `m` rows of `w` stores each, in row-major order. -/
theorem fill_rows_written (v w : Nat) (hw : 0 < w) (m : Nat) (s : State)
    (h : s.ptr + m * w ≤ s.buf.length) :
    ∃ t, for_upto (fun i => for_upto (fun j => store v i j) w) m s = some t ∧
      Written v (row_major w s.ptr v) s (m * w) t := by
  induction m with
  | zero =>
    refine ⟨s, rfl, ?_⟩
    rw [Nat.zero_mul]
    exact written_zero _ _ _ (by omega)
  | succ m ih =>
    have hm : (m + 1) * w = m * w + w := Nat.succ_mul m w
    obtain ⟨t, ht, hwr⟩ := ih (by omega)
    have hp : t.ptr = s.ptr + m * w := hwr.2.1
    have hl : t.buf.length = s.buf.length := hwr.2.2.1
    obtain ⟨u, hu, hwr'⟩ := fill_row_written v m w t (by omega)
    refine ⟨u, ?_, ?_⟩
    · simp [for_upto, ht, hu]
    · rw [hm]
      refine written_trans hwr hwr' ?_
      intro j hj
      have h1 : (m * w + j) / w = m := by
        rw [Nat.add_comm, Nat.add_mul_div_right _ _ hw, Nat.div_eq_of_lt hj, Nat.zero_add]
      have h2 : (m * w + j) % w = j := by
        rw [Nat.add_comm, Nat.add_mul_mod_self_right, Nat.mod_eq_of_lt hj]
      simp only [row_major, h1, h2, hp, Nat.add_assoc]

/-- The nested loop of lines 170-176 on a state with room for `768 * 1024` cells. -/
theorem fill_written (v : Nat) (s : State) (h : s.ptr + 786432 ≤ s.buf.length) :
    ∃ t, fill v s = some t ∧ Written v (row_major 1024 s.ptr v) s 786432 t :=
  fill_rows_written v 1024 (by decide) 768 s h

/-! ## Pixel packing -/

theorem pixel_eq_sum (r g b : Nat) (hr : r < 256) (hg : g < 256) (hb : b < 256) :
    pixel r g b = 0xFF000000 + 65536 * r + 256 * g + b := by
  unfold pixel
  rw [Nat.shiftLeft_eq, Nat.shiftLeft_eq]
  have e1 : 0xFF000000 ||| r * 2 ^ 16 = 2 ^ 24 * 255 + r * 2 ^ 16 := by
    rw [Nat.mul_add_lt_is_or (by omega) 255]
  have e2 : 2 ^ 24 * 255 + r * 2 ^ 16 ||| g * 2 ^ 8 = 2 ^ 16 * (65280 + r) + g * 2 ^ 8 := by
    rw [Nat.mul_add_lt_is_or (by omega) (65280 + r)]
    congr 1
    omega
  have e3 : 2 ^ 16 * (65280 + r) + g * 2 ^ 8 ||| b = 2 ^ 8 * (16711680 + 256 * r + g) + b := by
    rw [Nat.mul_add_lt_is_or (by omega) (16711680 + 256 * r + g)]
    congr 1
    omega
  rw [e1, e2, e3]
  omega

theorem and_255 (n : Nat) : n &&& 0xFF = n % 256 :=
  Nat.and_pow_two_sub_one_eq_mod n 8

theorem pixel_eq_or (r g b : Nat) (hr : r < 256) (hg : g < 256) (hb : b < 256) :
    pixel r g b = 0xFF000000 ||| (r <<< 16) ||| (g <<< 8) ||| b := by
  have hbits : 0xFF000000 ||| (r <<< 16) ||| (g <<< 8) ||| b < 2 ^ 32 := by
    refine Nat.or_lt_two_pow (Nat.or_lt_two_pow (Nat.or_lt_two_pow (by norm_num) ?_) ?_) ?_
    · rw [Nat.shiftLeft_eq]; omega
    · rw [Nat.shiftLeft_eq]; omega
    · omega
  exact Nat.mod_eq_of_lt hbits

/-- C6: for 8-bit `R`, `G`, `B` the pixel value is `0xFF000000 + 65536 * R + 256 * G + B`,
a 32-bit value whose top byte is `0xFF` and whose next three bytes are `R`, `G` and `B`;
shifting and masking recovers them, so the packing is injective on 8-bit triples. -/
theorem pixel_layout (r g b r' g' b' : Nat) (hr : r < 256) (hg : g < 256) (hb : b < 256)
    (hr' : r' < 256) (hg' : g' < 256) (hb' : b' < 256) :
    pixel r g b = 0xFF000000 ||| (r <<< 16) ||| (g <<< 8) ||| b ∧
    pixel r g b = 0xFF000000 + 65536 * r + 256 * g + b ∧
    pixel r g b < 2 ^ 32 ∧
    pixel r g b >>> 24 = 0xFF ∧
    (pixel r g b >>> 16) &&& 0xFF = r ∧
    (pixel r g b >>> 8) &&& 0xFF = g ∧
    pixel r g b &&& 0xFF = b ∧
    (pixel r g b = pixel r' g' b' → r = r' ∧ g = g' ∧ b = b') := by
  have h := pixel_eq_sum r g b hr hg hb
  have h' := pixel_eq_sum r' g' b' hr' hg' hb'
  have hlt : pixel r g b < 2 ^ 32 := by rw [h]; omega
  refine ⟨pixel_eq_or r g b hr hg hb, h, hlt, ?_, ?_, ?_, ?_, ?_⟩
  · rw [Nat.shiftRight_eq_div_pow, h]; omega
  · rw [Nat.shiftRight_eq_div_pow, and_255, h]; omega
  · rw [Nat.shiftRight_eq_div_pow, and_255, h]; omega
  · rw [and_255, h]; omega
  · intro he
    rw [h, h'] at he
    omega

/-- Witness of C6: the colour (115, 7, 9) packs to `0xFF730709`. -/
theorem pixel_layout_witness :
    115 < 256 ∧ 7 < 256 ∧ 9 < 256 ∧ pixel 115 7 9 = 0xFF730709 ∧
    (pixel 115 7 9 = 0xFF000000 ||| (115 <<< 16) ||| (7 <<< 8) ||| 9 ∧
    pixel 115 7 9 = 0xFF000000 + 65536 * 115 + 256 * 7 + 9 ∧
    pixel 115 7 9 < 2 ^ 32 ∧
    pixel 115 7 9 >>> 24 = 0xFF ∧
    (pixel 115 7 9 >>> 16) &&& 0xFF = 115 ∧
    (pixel 115 7 9 >>> 8) &&& 0xFF = 7 ∧
    pixel 115 7 9 &&& 0xFF = 9 ∧
    (pixel 115 7 9 = pixel 115 7 8 → 115 = 115 ∧ 7 = 7 ∧ 9 = 8)) :=
  ⟨by decide, by decide, by decide, by decide,
    pixel_layout 115 7 9 115 7 8 (by decide) (by decide) (by decide) (by decide) (by decide)
      (by decide)⟩

/-! ## The frame renderer -/

theorem written_full_buf {v : Nat} {f : Nat → WriteEvent} {s t : State}
    (hlen : s.buf.length = 786432) (hptr : s.ptr = 0) (h : Written v f s 786432 t) :
    t.buf = List.replicate 786432 v := by
  obtain ⟨_, _, l, hb, _, _, _⟩ := h
  apply List.ext_getElem?
  intro k
  rw [hb k, List.getElem?_replicate, hptr]
  by_cases hk : k < 786432
  · rw [if_pos (by omega), if_pos hk]
  · rw [if_neg (by omega), if_neg hk]
    exact List.getElem?_eq_none (by omega)

theorem fill_pass_full (r g b : Nat) (s : State) (hlen : s.buf.length = 786432)
    (hptr : s.ptr = 0) :
    ∃ t, fill_pass r g b s = some t ∧ t.buf = List.replicate 786432 (pixel r g b) ∧
      t.ptr = s.ptr ∧ t.seed = s.seed ∧ t.pos = s.pos := by
  obtain ⟨t, ht, hw⟩ := fill_written (pixel r g b) s (by omega)
  have hbuf : t.buf = List.replicate 786432 (pixel r g b) := written_full_buf hlen hptr hw
  refine ⟨{ t with ptr := s.ptr }, ?_, hbuf, rfl, hw.2.2.2.2.1, hw.2.2.2.2.2.1⟩
  simp [fill_pass, ht]

theorem step_colors_eq (gen : Nat → Nat → Nat) (c : Channels) (s : State)
    {ru gu bu : Bool} {R G B : Nat}
    (hr : next_color c.r_up c.r 20 (gen s.seed s.pos) = some (ru, R))
    (hg : next_color c.g_up c.g 10 (gen s.seed (s.pos + 1)) = some (gu, G))
    (hb : next_color c.b_up c.b 5 (gen s.seed (s.pos + 1 + 1)) = some (bu, B)) :
    step_colors gen c s = some (⟨R, G, B, ru, gu, bu⟩, { s with pos := s.pos + 1 + 1 + 1 }) := by
  simp [step_colors, rand, hr, hg, hb]

/-- C4: one call of `modeset_draw` on the 1024 x 768 buffer returns, and afterwards each
of the 786432 cells holds `0xFF000000 | (R << 16) | (G << 8) | B`, where `R`, `G`, `B` are
the values returned by the frame's three `next_color` calls (bounds 20, 10, 5, made on the
intensities drawn at lines 157-159 with the flags ascending). -/
theorem modeset_draw_fills_buffer (gen : Nat → Nat → Nat) (inp : FrameInput) (s : State)
    (hlen : s.buf.length = 786432) (hptr : s.ptr = 0) :
    ∃ (ru gu bu : Bool) (R G B : Nat) (s' : State) (e : ℚ),
      next_color true (gen (inp.now % 2 ^ 32) 0 % 0xff) 20 (gen (inp.now % 2 ^ 32) 3)
        = some (ru, R) ∧
      next_color true (gen (inp.now % 2 ^ 32) 1 % 0xff) 10 (gen (inp.now % 2 ^ 32) 4)
        = some (gu, G) ∧
      next_color true (gen (inp.now % 2 ^ 32) 2 % 0xff) 5 (gen (inp.now % 2 ^ 32) 5)
        = some (bu, B) ∧
      modeset_draw gen inp s = some (s', e) ∧
      s'.buf.length = 1024 * 768 ∧
      s'.buf = List.replicate 786432 (0xFF000000 ||| (R <<< 16) ||| (G <<< 8) ||| B) ∧
      ∀ k, k < 786432 → s'.buf[k]? = some (0xFF000000 ||| (R <<< 16) ||| (G <<< 8) ||| B) := by
  obtain ⟨ru, R, hr, hR, _, _⟩ :=
    next_color_step_bound true (gen (inp.now % 2 ^ 32) 0 % 0xff) 20 (gen (inp.now % 2 ^ 32) 3)
      (by omega) (by decide)
  obtain ⟨gu, G, hg, hG, _, _⟩ :=
    next_color_step_bound true (gen (inp.now % 2 ^ 32) 1 % 0xff) 10 (gen (inp.now % 2 ^ 32) 4)
      (by omega) (by decide)
  obtain ⟨bu, B, hb, hB, _, _⟩ :=
    next_color_step_bound true (gen (inp.now % 2 ^ 32) 2 % 0xff) 5 (gen (inp.now % 2 ^ 32) 5)
      (by omega) (by decide)
  have hstep := step_colors_eq gen (seed_colors gen inp.now s).1 (seed_colors gen inp.now s).2
    hr hg hb
  obtain ⟨t, ht, hbuf, _, _, _⟩ := fill_pass_full R G B
    { (seed_colors gen inp.now s).2 with pos := (seed_colors gen inp.now s).2.pos + 1 + 1 + 1 }
    hlen hptr
  have hpx : pixel R G B = 0xFF000000 ||| (R <<< 16) ||| (G <<< 8) ||| B :=
    pixel_eq_or R G B hR hG hB
  rw [hpx] at hbuf
  refine ⟨ru, gu, bu, R, G, B, t, elapsedTime inp.t1 inp.t2, hr, hg, hb, ?_, ?_, hbuf, ?_⟩
  · simp only [modeset_draw, hstep, ht]
  · rw [hbuf, List.length_replicate]
  · intro k hk
    rw [hbuf, List.getElem?_replicate, if_pos hk]

/-- Witness of C4: a zeroed buffer of 786432 cells with the pointer at its base. -/
theorem modeset_draw_fills_buffer_witness :
    (List.replicate 786432 0).length = 786432 ∧
    ∃ (ru gu bu : Bool) (R G B : Nat) (s' : State) (e : ℚ),
      next_color true ((fun _ k => 40 * k) (0 % 2 ^ 32) 0 % 0xff) 20
        ((fun _ k => 40 * k) (0 % 2 ^ 32) 3) = some (ru, R) ∧
      next_color true ((fun _ k => 40 * k) (0 % 2 ^ 32) 1 % 0xff) 10
        ((fun _ k => 40 * k) (0 % 2 ^ 32) 4) = some (gu, G) ∧
      next_color true ((fun _ k => 40 * k) (0 % 2 ^ 32) 2 % 0xff) 5
        ((fun _ k => 40 * k) (0 % 2 ^ 32) 5) = some (bu, B) ∧
      modeset_draw (fun _ k => 40 * k) ⟨0, ⟨0, 0⟩, ⟨0, 250⟩⟩
        ⟨List.replicate 786432 0, 0, 1, 0, []⟩ = some (s', e) ∧
      s'.buf.length = 1024 * 768 ∧
      s'.buf = List.replicate 786432 (0xFF000000 ||| (R <<< 16) ||| (G <<< 8) ||| B) ∧
      ∀ k, k < 786432 → s'.buf[k]? = some (0xFF000000 ||| (R <<< 16) ||| (G <<< 8) ||| B) :=
  ⟨List.length_replicate _ _,
    modeset_draw_fills_buffer (fun _ k => 40 * k) ⟨0, ⟨0, 0⟩, ⟨0, 250⟩⟩
      ⟨List.replicate 786432 0, 0, 1, 0, []⟩ (List.length_replicate _ _) rfl⟩

/-- C5 fails on the code: the channel variables are locals of `modeset_draw`, drawn
afresh with the flags ascending on every call.  With a generator whose first draw after
`srand(t)` is `250 + t` and whose fourth draw is 15, the frame at time 0 ends with red
`(250, descending)`, and the next frame, at time 1 and from any state, hands `next_color`
red `(251, ascending)`. -/
theorem modeset_draw_channels_not_carried (s s' : State) :
    (step_colors (fun t k => if k = 0 then 250 + t else if k = 3 then 15 else 0)
        (seed_colors (fun t k => if k = 0 then 250 + t else if k = 3 then 15 else 0) 0 s).1
        (seed_colors (fun t k => if k = 0 then 250 + t else if k = 3 then 15 else 0) 0 s).2).map
      (fun p => (p.1.r, p.1.r_up)) = some (250, false) ∧
    (seed_colors (fun t k => if k = 0 then 250 + t else if k = 3 then 15 else 0) 1 s').1
      = ⟨251, 0, 0, true, true, true⟩ := by
  constructor
  · simp [step_colors, seed_colors, rand, srand, next_color, candidate, flip_test]
  · simp [seed_colors, rand, srand]

/-- C9: on a 1024 x 768 buffer with the pointer at its base, the fill pass run twice with
one colour leaves the buffer (and the pointer) as one run does, and the buffer it leaves
is the same whatever the buffer held before. -/
theorem fill_pass_idempotent (r g b : Nat) (s s0 : State)
    (hlen : s.buf.length = 786432) (hptr : s.ptr = 0)
    (hlen0 : s0.buf.length = 786432) (hptr0 : s0.ptr = 0) :
    ∃ t1 t2 t0, fill_pass r g b s = some t1 ∧ fill_pass r g b t1 = some t2 ∧
      t2.buf = t1.buf ∧ t2.ptr = t1.ptr ∧
      fill_pass r g b s0 = some t0 ∧ t0.buf = t1.buf := by
  obtain ⟨t1, h1, b1, p1, _, _⟩ := fill_pass_full r g b s hlen hptr
  have hlen1 : t1.buf.length = 786432 := by rw [b1, List.length_replicate]
  have hptr1 : t1.ptr = 0 := by rw [p1, hptr]
  obtain ⟨t2, h2, b2, p2, _, _⟩ := fill_pass_full r g b t1 hlen1 hptr1
  obtain ⟨t0, h0, b0, _, _, _⟩ := fill_pass_full r g b s0 hlen0 hptr0
  exact ⟨t1, t2, t0, h1, h2, by rw [b2, b1], p2, h0, by rw [b0, b1]⟩

/-- Witness of C9: a zeroed buffer and a buffer of `0xFFFFFFFF` cells, colour (115, 7, 9). -/
theorem fill_pass_idempotent_witness :
    (List.replicate 786432 0).length = 786432 ∧
    (List.replicate 786432 4294967295).length = 786432 ∧
    ∃ t1 t2 t0,
      fill_pass 115 7 9 ⟨List.replicate 786432 0, 0, 0, 0, []⟩ = some t1 ∧
      fill_pass 115 7 9 t1 = some t2 ∧
      t2.buf = t1.buf ∧ t2.ptr = t1.ptr ∧
      fill_pass 115 7 9 ⟨List.replicate 786432 4294967295, 0, 5, 6, []⟩ = some t0 ∧
      t0.buf = t1.buf :=
  ⟨List.length_replicate _ _, List.length_replicate _ _,
    fill_pass_idempotent 115 7 9 ⟨List.replicate 786432 0, 0, 0, 0, []⟩
      ⟨List.replicate 786432 4294967295, 0, 5, 6, []⟩
      (List.length_replicate _ _) rfl (List.length_replicate _ _) rfl⟩

/-- C10: the nested loop on a 1024 x 768 buffer with the pointer at its base performs
exactly 786432 stores; their offsets, in the order made, are 0, 1, ..., 786431 (strictly
increasing, each once); the store of row `i`, column `j` is the one at position and
offset `i * 1024 + j`; every store writes the same value. -/
theorem fill_row_major_order (v : Nat) (s : State)
    (hlen : s.buf.length = 786432) (hptr : s.ptr = 0) :
    ∃ t evs, fill v s = some t ∧ t.writes = s.writes ++ evs ∧
      evs.length = 1024 * 768 ∧
      evs.map WriteEvent.off = List.range (1024 * 768) ∧
      (evs.map WriteEvent.off).Pairwise (fun a b => a < b) ∧
      (∀ i j, i < 768 → j < 1024 → evs[i * 1024 + j]? = some ⟨i, j, i * 1024 + j, v⟩) ∧
      (∀ e, e ∈ evs → e.val = v ∧ e.row < 768 ∧ e.col < 1024 ∧ e.off = e.row * 1024 + e.col) := by
  obtain ⟨t, ht, hw⟩ := fill_written v s (by omega)
  have hoff : (List.map (row_major 1024 s.ptr v) (List.range 786432)).map WriteEvent.off
      = List.range (1024 * 768) := by
    rw [List.map_map]
    have : (WriteEvent.off ∘ row_major 1024 s.ptr v) = id := by
      funext k
      simp [row_major, hptr]
    rw [this, List.map_id]
  refine ⟨t, (List.range 786432).map (row_major 1024 s.ptr v), ht, hw.2.2.2.2.2.2, ?_, hoff,
    ?_, ?_, ?_⟩
  · rw [List.length_map, List.length_range]
  · rw [hoff]
    exact List.pairwise_lt_range _
  · intro i j hi hj
    rw [List.getElem?_map, List.getElem?_range (by omega)]
    have h1 : (i * 1024 + j) / 1024 = i := by omega
    have h2 : (i * 1024 + j) % 1024 = j := by omega
    simp [row_major, h1, h2, hptr]
  · intro e he
    obtain ⟨k, hk, rfl⟩ := List.mem_map.mp he
    have hk' : k < 786432 := List.mem_range.mp hk
    simp only [row_major, hptr]
    refine ⟨trivial, ?_, ?_, ?_⟩ <;> omega

/-- Witness of C10: a zeroed buffer of 786432 cells, value `0xFF730709`. -/
theorem fill_row_major_order_witness :
    (List.replicate 786432 0).length = 786432 ∧
    ∃ t evs, fill 4285728521 ⟨List.replicate 786432 0, 0, 0, 0, []⟩ = some t ∧
      t.writes = [] ++ evs ∧
      evs.length = 1024 * 768 ∧
      evs.map WriteEvent.off = List.range (1024 * 768) ∧
      (evs.map WriteEvent.off).Pairwise (fun a b => a < b) ∧
      (∀ i j, i < 768 → j < 1024 →
        evs[i * 1024 + j]? = some ⟨i, j, i * 1024 + j, 4285728521⟩) ∧
      (∀ e, e ∈ evs →
        e.val = 4285728521 ∧ e.row < 768 ∧ e.col < 1024 ∧ e.off = e.row * 1024 + e.col) :=
  ⟨List.length_replicate _ _,
    fill_row_major_order 4285728521 ⟨List.replicate 786432 0, 0, 0, 0, []⟩
      (List.length_replicate _ _) rfl⟩

/-! ## Single steps of the oscillator, by direction -/

theorem next_color_up_eq (cur mod x : Nat) (hmod : 1 ≤ mod) :
    next_color true cur mod x =
      if (cur + x % mod) % 256 < cur then some (false, cur)
      else some (true, (cur + x % mod) % 256) := by
  rw [next_color_eq true cur mod x hmod, candidate_up]
  by_cases h : (cur + x % mod) % 256 < cur
  · have hf : flip_test true ((cur + x % mod) % 256) cur = true := by simp [flip_test, h]
    rw [hf, if_pos h]
    rfl
  · have hf : flip_test true ((cur + x % mod) % 256) cur = false := by simp [flip_test, h]
    rw [hf, if_neg h]
    rfl

theorem next_color_down_eq (cur mod x : Nat) (hmod : 1 ≤ mod) :
    next_color false cur mod x =
      if cur < (cur + 255 * ((x % mod) % 256)) % 256 then some (true, cur)
      else some (false, (cur + 255 * ((x % mod) % 256)) % 256) := by
  rw [next_color_eq false cur mod x hmod, candidate_down]
  by_cases h : cur < (cur + 255 * ((x % mod) % 256)) % 256
  · have hf : flip_test false ((cur + 255 * ((x % mod) % 256)) % 256) cur = true := by
      simp [flip_test, h]
    rw [hf, if_pos h]
    rfl
  · have hf : flip_test false ((cur + 255 * ((x % mod) % 256)) % 256) cur = false := by
      simp [flip_test, h]
    rw [hf, if_neg h]
    rfl

/-- An ascending call returns a value between `cur` and `min 255 (cur + mod - 1)`. -/
theorem next_color_up_bounds (cur mod x : Nat) (hcur : cur < 256) (hmod : 1 ≤ mod) :
    ∃ up' v, next_color true cur mod x = some (up', v) ∧ cur ≤ v ∧ v ≤ 255 ∧
      v + 1 ≤ cur + mod := by
  have hm : x % mod < mod := Nat.mod_lt _ (by omega)
  rw [next_color_up_eq cur mod x hmod]
  by_cases h : (cur + x % mod) % 256 < cur
  · rw [if_pos h]
    exact ⟨_, _, rfl, by omega, by omega, by omega⟩
  · rw [if_neg h]
    exact ⟨_, _, rfl, by omega, by omega, by omega⟩

/-- A descending call returns a value between `cur - (mod - 1)` and `cur`. -/
theorem next_color_down_bounds (cur mod x : Nat) (hcur : cur < 256) (hmod : 1 ≤ mod) :
    ∃ up' v, next_color false cur mod x = some (up', v) ∧ v ≤ cur ∧ cur + 1 ≤ v + mod := by
  have hm : x % mod < mod := Nat.mod_lt _ (by omega)
  rw [next_color_down_eq cur mod x hmod]
  by_cases h : cur < (cur + 255 * ((x % mod) % 256)) % 256
  · rw [if_pos h]
    exact ⟨_, _, rfl, by omega, by omega⟩
  · rw [if_neg h]
    exact ⟨_, _, rfl, by omega, by omega⟩

/-- C12, as stated, fails for a step bound above 256: with bound 301 and draw 300,
ascending from 200 the unbounded sum is 500 and the call returns 244 with the flag kept
(neither the held 200 nor 500: the candidate wrapped once round the 8-bit range);
descending from 200 the unbounded difference is -100 and the call returns 156. -/
theorem next_color_moves_with_flag_counterexample :
    (200 : Nat) < 256 ∧ 1 ≤ 301 ∧ 300 % 301 = 300 ∧
    next_color true 200 301 300 = some (true, 244) ∧
    (244 : Nat) ≠ 200 ∧ ((244 : Nat) : Int) ≠ ((200 : Nat) : Int) + ((300 % 301 : Nat) : Int) ∧
    (255 : Int) < ((200 : Nat) : Int) + ((300 % 301 : Nat) : Int) ∧
    next_color false 200 301 300 = some (false, 156) ∧
    (156 : Nat) ≠ 200 ∧ ((156 : Nat) : Int) ≠ ((200 : Nat) : Int) - ((300 % 301 : Nat) : Int) ∧
    ((200 : Nat) : Int) - ((300 % 301 : Nat) : Int) < 0 := by
  decide

/-- C12 (amended): for an 8-bit `cur`, a step bound of at least 1 and any draw,
`next_color` returns an 8-bit value that is never on the wrong side of `cur` (at least
`cur` when the flag is ascending on entry, at most `cur` when it is descending); and for
a step bound between 1 and 256 it never wraps: the value returned is `cur` itself or
exactly `cur + m` (ascending) or `cur - m` (descending) as unbounded integers, where
`m = x % mod`. -/
theorem next_color_moves_with_flag (up : Bool) (cur mod x : Nat) (hcur : cur < 256)
    (hmod : 1 ≤ mod) :
    (∃ up' v, next_color up cur mod x = some (up', v) ∧ v ≤ 255 ∧
      (up = true → cur ≤ v) ∧ (up = false → v ≤ cur)) ∧
    (mod ≤ 256 →
      ∃ up' v, next_color up cur mod x = some (up', v) ∧
        (v = cur ∨
          (v : Int) = (cur : Int) + (if up then 1 else -1) * ((x % mod : Nat) : Int))) := by
  have hm : x % mod < mod := Nat.mod_lt _ (by omega)
  constructor
  · cases up
    · obtain ⟨up', v, h, hle, _⟩ := next_color_down_bounds cur mod x hcur hmod
      exact ⟨up', v, h, by omega, fun hf => absurd hf (by decide), fun _ => hle⟩
    · obtain ⟨up', v, h, hge, h255, _⟩ := next_color_up_bounds cur mod x hcur hmod
      exact ⟨up', v, h, h255, fun _ => hge, fun hf => absurd hf (by decide)⟩
  · intro hmod'
    cases up
    · rw [next_color_down_eq cur mod x hmod]
      by_cases h : cur < (cur + 255 * ((x % mod) % 256)) % 256
      · rw [if_pos h]
        exact ⟨_, _, rfl, Or.inl rfl⟩
      · rw [if_neg h]
        refine ⟨_, _, rfl, Or.inr ?_⟩
        have hle : x % mod ≤ cur := by omega
        have hs : (cur + 255 * ((x % mod) % 256)) % 256 = cur - x % mod := by omega
        rw [hs]
        simp only [Bool.false_eq_true, if_false]
        omega
    · rw [next_color_up_eq cur mod x hmod]
      by_cases h : (cur + x % mod) % 256 < cur
      · rw [if_pos h]
        exact ⟨_, _, rfl, Or.inl rfl⟩
      · rw [if_neg h]
        refine ⟨_, _, rfl, Or.inr ?_⟩
        have hs : (cur + x % mod) % 256 = cur + x % mod := by omega
        rw [hs]
        simp only [if_true]
        omega

/-- Witness of the amended C12: bound 20 with draw 15; `cur = 250` ascending holds at
250, `cur = 100` ascending moves to exactly 115, `cur = 100` descending to exactly 85. -/
theorem next_color_moves_with_flag_witness :
    250 < 256 ∧ 100 < 256 ∧ 1 ≤ 20 ∧ 20 ≤ 256 ∧
    next_color true 250 20 15 = some (false, 250) ∧
    next_color true 100 20 15 = some (true, 115) ∧
    next_color false 100 20 15 = some (false, 85) ∧
    (∃ up' v, next_color true 250 20 15 = some (up', v) ∧ v ≤ 255 ∧
      (true = true → 250 ≤ v) ∧ (true = false → v ≤ 250)) ∧
    (∃ up' v, next_color false 100 20 15 = some (up', v) ∧ v ≤ 255 ∧
      (false = true → 100 ≤ v) ∧ (false = false → v ≤ 100)) ∧
    (∃ up' v, next_color true 100 20 15 = some (up', v) ∧
      (v = 100 ∨
        (v : Int) = ((100 : Nat) : Int) + (if true then 1 else -1) * ((15 % 20 : Nat) : Int))) ∧
    (∃ up' v, next_color false 100 20 15 = some (up', v) ∧
      (v = 100 ∨
        (v : Int) = ((100 : Nat) : Int) + (if false then 1 else -1) * ((15 % 20 : Nat) : Int))) :=
  ⟨by decide, by decide, by decide, by decide, by decide, by decide, by decide,
    (next_color_moves_with_flag true 250 20 15 (by decide) (by decide)).1,
    (next_color_moves_with_flag false 100 20 15 (by decide) (by decide)).1,
    (next_color_moves_with_flag true 100 20 15 (by decide) (by decide)).2 (by decide),
    (next_color_moves_with_flag false 100 20 15 (by decide) (by decide)).2 (by decide)⟩

/-- C13: for a step bound between 1 and 128, an 8-bit `cur` and any two successive
draws, both calls return, and if the first call inverts the flag (holding `cur`) then the
second call, made with the held value, the inverted flag and the same bound, leaves the
flag as the first call set it. -/
theorem next_color_hold_lasts_one_step (up : Bool) (cur mod x1 x2 : Nat) (hcur : cur < 256)
    (hmod : 1 ≤ mod) (hmod' : mod ≤ 128) :
    ∃ up1 v1 up2 v2, next_color up cur mod x1 = some (up1, v1) ∧
      next_color up1 v1 mod x2 = some (up2, v2) ∧
      (up1 = !up → v1 = cur ∧ up2 = up1) := by
  have hm1 : x1 % mod < mod := Nat.mod_lt _ (by omega)
  have hm2 : x2 % mod < mod := Nat.mod_lt _ (by omega)
  cases up
  · rw [next_color_down_eq cur mod x1 hmod]
    by_cases h : cur < (cur + 255 * ((x1 % mod) % 256)) % 256
    · rw [if_pos h]
      have hc : cur < x1 % mod := by omega
      have hs : (cur + x2 % mod) % 256 = cur + x2 % mod := Nat.mod_eq_of_lt (by omega)
      have h2 : next_color true cur mod x2 = some (true, (cur + x2 % mod) % 256) := by
        rw [next_color_up_eq cur mod x2 hmod, if_neg (by omega)]
      exact ⟨_, _, _, _, rfl, h2, fun _ => ⟨rfl, rfl⟩⟩
    · rw [if_neg h]
      obtain ⟨up2, v2, h2, _⟩ :=
        next_color_down_bounds ((cur + 255 * ((x1 % mod) % 256)) % 256) mod x2 (by omega) hmod
      exact ⟨_, _, up2, v2, rfl, h2, fun hf => absurd hf (by decide)⟩
  · rw [next_color_up_eq cur mod x1 hmod]
    by_cases h : (cur + x1 % mod) % 256 < cur
    · rw [if_pos h]
      have hc : 256 ≤ cur + x1 % mod := by omega
      have hs : (cur + 255 * ((x2 % mod) % 256)) % 256 = cur - x2 % mod := by omega
      have h2 : next_color false cur mod x2
          = some (false, (cur + 255 * ((x2 % mod) % 256)) % 256) := by
        rw [next_color_down_eq cur mod x2 hmod, if_neg (by omega)]
      exact ⟨_, _, _, _, rfl, h2, fun _ => ⟨rfl, rfl⟩⟩
    · rw [if_neg h]
      obtain ⟨up2, v2, h2, _⟩ :=
        next_color_up_bounds ((cur + x1 % mod) % 256) mod x2 (by omega) hmod
      exact ⟨_, _, up2, v2, rfl, h2, fun hf => absurd hf (by decide)⟩

/-- Witness of C13: bound 20, `cur = 250` ascending, draws 15 then 19: the first call
holds 250 and turns descending, the second moves down to 231 and stays descending. -/
theorem next_color_hold_lasts_one_step_witness :
    250 < 256 ∧ 1 ≤ 20 ∧ 20 ≤ 128 ∧
    next_color true 250 20 15 = some (false, 250) ∧
    next_color false 250 20 19 = some (false, 231) ∧
    ∃ up1 v1 up2 v2, next_color true 250 20 15 = some (up1, v1) ∧
      next_color up1 v1 20 19 = some (up2, v2) ∧
      (up1 = !true → v1 = 250 ∧ up2 = up1) :=
  ⟨by decide, by decide, by decide, by decide, by decide,
    next_color_hold_lasts_one_step true 250 20 15 19 (by decide) (by decide) (by decide)⟩

/-- C15: for a step bound between 1 and 256, an 8-bit `cur` and `m = x % mod`: a flip
while ascending needs `cur ≥ 257 - mod` and `m ≥ 1`; a flip while descending needs
`cur ≤ mod - 2`; with bound 1 the flag is never inverted and `cur` is returned. -/
theorem next_color_flip_near_boundary (up : Bool) (cur mod x : Nat) (hcur : cur < 256)
    (hmod : 1 ≤ mod) (hmod' : mod ≤ 256) :
    ∃ up' v, next_color up cur mod x = some (up', v) ∧
      (up = true → up' = false → (257 : Int) - (mod : Int) ≤ (cur : Int) ∧ 1 ≤ x % mod) ∧
      (up = false → up' = true → (cur : Int) ≤ (mod : Int) - 2) ∧
      (mod = 1 → up' = up ∧ v = cur) := by
  have hm : x % mod < mod := Nat.mod_lt _ (by omega)
  cases up
  · rw [next_color_down_eq cur mod x hmod]
    by_cases h : cur < (cur + 255 * ((x % mod) % 256)) % 256
    · rw [if_pos h]
      refine ⟨_, _, rfl, fun hf => absurd hf (by decide), fun _ _ => by omega, ?_⟩
      intro h1
      omega
    · rw [if_neg h]
      refine ⟨_, _, rfl, fun hf => absurd hf (by decide), fun _ hf => absurd hf (by decide), ?_⟩
      intro h1
      exact ⟨rfl, by omega⟩
  · rw [next_color_up_eq cur mod x hmod]
    by_cases h : (cur + x % mod) % 256 < cur
    · rw [if_pos h]
      refine ⟨_, _, rfl, fun _ _ => ⟨by omega, by omega⟩, fun hf => absurd hf (by decide), ?_⟩
      intro h1
      omega
    · rw [if_neg h]
      refine ⟨_, _, rfl, fun _ hf => absurd hf (by decide), fun hf => absurd hf (by decide), ?_⟩
      intro h1
      exact ⟨rfl, by omega⟩

/-- Witness of C15: bound 20, `cur = 250` ascending, draw 15 flips with
`250 ≥ 257 - 20`; bound 1 at `cur = 255` returns 255 with the flag unchanged. -/
theorem next_color_flip_near_boundary_witness :
    250 < 256 ∧ 1 ≤ 20 ∧ 20 ≤ 256 ∧ 255 < 256 ∧ 1 ≤ 1 ∧ 1 ≤ 256 ∧
    next_color true 250 20 15 = some (false, 250) ∧
    (∃ up' v, next_color true 250 20 15 = some (up', v) ∧
      (true = true → up' = false →
        (257 : Int) - ((20 : Nat) : Int) ≤ ((250 : Nat) : Int) ∧ 1 ≤ 15 % 20) ∧
      (true = false → up' = true → ((250 : Nat) : Int) ≤ ((20 : Nat) : Int) - 2) ∧
      (20 = 1 → up' = true ∧ v = 250)) ∧
    (∃ up' v, next_color true 255 1 7 = some (up', v) ∧
      (true = true → up' = false →
        (257 : Int) - ((1 : Nat) : Int) ≤ ((255 : Nat) : Int) ∧ 1 ≤ 7 % 1) ∧
      (true = false → up' = true → ((255 : Nat) : Int) ≤ ((1 : Nat) : Int) - 2) ∧
      (1 = 1 → up' = true ∧ v = 255)) :=
  ⟨by decide, by decide, by decide, by decide, by decide, by decide, by decide,
    next_color_flip_near_boundary true 250 20 15 (by decide) (by decide) (by decide),
    next_color_flip_near_boundary true 255 1 7 (by decide) (by decide) (by decide)⟩

/-- C18: the candidate of line 118, computed in 32-bit unsigned arithmetic and truncated
to 8 bits, is `(cur + m) mod 256` when ascending and `(cur - m) mod 256` when descending,
where `m = x % mod`, the difference is an unbounded integer and `mod 256` is the residue
in `[0, 255]`. -/
theorem candidate_exact_mod_256 (cur mod x : Nat) :
    candidate true cur mod x = (cur + x % mod) % 256 ∧
    ((candidate false cur mod x : Nat) : Int) = ((cur : Int) - ((x % mod : Nat) : Int)) % 256 ∧
    candidate true cur mod x
      = (cur + (1 * (x % mod)) % 2 ^ 32) % 2 ^ 32 % 256 ∧
    candidate false cur mod x
      = (cur + ((2 ^ 32 - 1) * (x % mod)) % 2 ^ 32) % 2 ^ 32 % 256 := by
  refine ⟨candidate_up cur mod x, ?_, rfl, rfl⟩
  rw [candidate_down]
  omega

/-! ## One frame, step by step -/

theorem seed_colors_eq (gen : Nat → Nat → Nat) (now : Nat) (s : State) :
    seed_colors gen now s =
      (⟨gen (now % 2 ^ 32) 0 % 0xff, gen (now % 2 ^ 32) 1 % 0xff, gen (now % 2 ^ 32) 2 % 0xff,
          true, true, true⟩,
        { s with seed := now % 2 ^ 32, pos := 3 }) :=
  rfl

/-- The three `next_color` calls of a frame: they return, leave the generator six draws
after the `srand`, and each value lies between its seed intensity and
`min 255 (seed + bound - 1)`. -/
theorem step_colors_seeded (gen : Nat → Nat → Nat) (now : Nat) (s : State) :
    ∃ c, step_colors gen (seed_colors gen now s).1 (seed_colors gen now s).2
        = some (c, { s with seed := now % 2 ^ 32, pos := 6 }) ∧
      (gen (now % 2 ^ 32) 0 % 0xff ≤ c.r ∧ c.r ≤ 255 ∧ c.r + 1 ≤ gen (now % 2 ^ 32) 0 % 0xff + 20) ∧
      (gen (now % 2 ^ 32) 1 % 0xff ≤ c.g ∧ c.g ≤ 255 ∧ c.g + 1 ≤ gen (now % 2 ^ 32) 1 % 0xff + 10) ∧
      (gen (now % 2 ^ 32) 2 % 0xff ≤ c.b ∧ c.b ≤ 255 ∧ c.b + 1 ≤ gen (now % 2 ^ 32) 2 % 0xff + 5) := by
  obtain ⟨ru, R, hr, hR⟩ :=
    next_color_up_bounds (gen (now % 2 ^ 32) 0 % 0xff) 20 (gen (now % 2 ^ 32) 3)
      (by omega) (by decide)
  obtain ⟨gu, G, hg, hG⟩ :=
    next_color_up_bounds (gen (now % 2 ^ 32) 1 % 0xff) 10 (gen (now % 2 ^ 32) 4)
      (by omega) (by decide)
  obtain ⟨bu, B, hb, hB⟩ :=
    next_color_up_bounds (gen (now % 2 ^ 32) 2 % 0xff) 5 (gen (now % 2 ^ 32) 5)
      (by omega) (by decide)
  have hstep := step_colors_eq gen (seed_colors gen now s).1 (seed_colors gen now s).2 hr hg hb
  exact ⟨⟨R, G, B, ru, gu, bu⟩, hstep, hR, hG, hB⟩

/-- One call of `modeset_draw` on a state with room for the fill: the colour `c` comes
from the clock value alone, the nested loop runs from the entry pointer, and the call
returns the loop's final state with the pointer restored. -/
theorem modeset_draw_run (gen : Nat → Nat → Nat) (inp : FrameInput) (s : State)
    (hroom : s.ptr + 786432 ≤ s.buf.length) :
    ∃ c t, step_colors gen (seed_colors gen inp.now s).1 (seed_colors gen inp.now s).2
        = some (c, { s with seed := inp.now % 2 ^ 32, pos := 6 }) ∧
      fill (pixel c.r c.g c.b) { s with seed := inp.now % 2 ^ 32, pos := 6 } = some t ∧
      Written (pixel c.r c.g c.b) (row_major 1024 s.ptr (pixel c.r c.g c.b))
        { s with seed := inp.now % 2 ^ 32, pos := 6 } 786432 t ∧
      modeset_draw gen inp s = some ({ t with ptr := s.ptr }, elapsedTime inp.t1 inp.t2) := by
  obtain ⟨c, hc, _⟩ := step_colors_seeded gen inp.now s
  obtain ⟨t, ht, hw⟩ :=
    fill_written (pixel c.r c.g c.b) { s with seed := inp.now % 2 ^ 32, pos := 6 } hroom
  refine ⟨c, t, hc, ht, hw, ?_⟩
  simp only [modeset_draw, hc, fill_pass, ht, Option.map_some']

/-- Every iteration of the loop of `main` returns and keeps the pointer and the size of
the block. -/
theorem main_loop_preserves (gen : Nat → Nat → Nat) (inputs : List FrameInput) :
    ∀ s : State, s.ptr + 786432 ≤ s.buf.length →
      ∃ s', main_loop gen inputs s = some s' ∧ s'.ptr = s.ptr ∧
        s'.buf.length = s.buf.length := by
  induction inputs with
  | nil =>
    intro s _
    exact ⟨s, rfl, rfl, rfl⟩
  | cons inp rest ih =>
    intro s hroom
    obtain ⟨c, t, _, _, hw, hd⟩ := modeset_draw_run gen inp s hroom
    have hl : t.buf.length = s.buf.length := hw.2.2.1
    obtain ⟨s', hs', hp, hlen⟩ := ih { t with ptr := s.ptr } (by simpa [hl] using hroom)
    refine ⟨s', ?_, hp, ?_⟩
    · simp only [main_loop, hd, hs']
    · rw [hlen]
      exact hl

/-- The colour of a frame is determined by the generator and the seed: after
`srand(sd)` and the three seed draws, the three `next_color` calls give one colour `c`
whatever the rest of the state. -/
theorem step_colors_of_seed (gen : Nat → Nat → Nat) (sd : Nat) :
    ∃ c, ∀ s : State,
      step_colors gen ⟨gen sd 0 % 0xff, gen sd 1 % 0xff, gen sd 2 % 0xff, true, true, true⟩
          { s with seed := sd, pos := 3 }
        = some (c, { s with seed := sd, pos := 6 }) := by
  obtain ⟨ru, R, hr, _⟩ := next_color_up_bounds (gen sd 0 % 0xff) 20 (gen sd 3)
    (by omega) (by decide)
  obtain ⟨gu, G, hg, _⟩ := next_color_up_bounds (gen sd 1 % 0xff) 10 (gen sd 4)
    (by omega) (by decide)
  obtain ⟨bu, B, hb, _⟩ := next_color_up_bounds (gen sd 2 % 0xff) 5 (gen sd 5)
    (by omega) (by decide)
  refine ⟨⟨R, G, B, ru, gu, bu⟩, ?_⟩
  intro s
  exact step_colors_eq gen
    ⟨gen sd 0 % 0xff, gen sd 1 % 0xff, gen sd 2 % 0xff, true, true, true⟩
    { s with seed := sd, pos := 3 } hr hg hb

/-- Two frames whose seeds agree fill their buffers alike. -/
theorem modeset_draw_same_seed (gen : Nat → Nat → Nat) (inp1 inp2 : FrameInput)
    (s1 s2 : State) (hseed : inp1.now % 2 ^ 32 = inp2.now % 2 ^ 32)
    (hlen1 : s1.buf.length = 786432) (hptr1 : s1.ptr = 0)
    (hlen2 : s2.buf.length = 786432) (hptr2 : s2.ptr = 0) :
    ∃ (c : Channels) (t1 t2 : State),
      modeset_draw gen inp1 s1 = some (t1, elapsedTime inp1.t1 inp1.t2) ∧
      modeset_draw gen inp2 s2 = some (t2, elapsedTime inp2.t1 inp2.t2) ∧
      t1.buf = List.replicate 786432 (pixel c.r c.g c.b) ∧
      t2.buf = List.replicate 786432 (pixel c.r c.g c.b) := by
  obtain ⟨c, hc⟩ := step_colors_of_seed gen (inp1.now % 2 ^ 32)
  have h1 : step_colors gen (seed_colors gen inp1.now s1).1 (seed_colors gen inp1.now s1).2
      = some (c, { s1 with seed := inp1.now % 2 ^ 32, pos := 6 }) := hc s1
  have h2 : step_colors gen (seed_colors gen inp2.now s2).1 (seed_colors gen inp2.now s2).2
      = some (c, { s2 with seed := inp1.now % 2 ^ 32, pos := 6 }) := by
    rw [seed_colors_eq, ← hseed]
    exact hc s2
  obtain ⟨t1, ht1, hb1, _⟩ :=
    fill_pass_full c.r c.g c.b { s1 with seed := inp1.now % 2 ^ 32, pos := 6 } hlen1 hptr1
  obtain ⟨t2, ht2, hb2, _⟩ :=
    fill_pass_full c.r c.g c.b { s2 with seed := inp1.now % 2 ^ 32, pos := 6 } hlen2 hptr2
  refine ⟨c, t1, t2, ?_, ?_, hb1, hb2⟩
  · simp only [modeset_draw, h1, ht1]
  · simp only [modeset_draw, h2, ht2]

/-! ## Properties of a frame -/

/-- C11: two runs of `modeset_draw` from one state with one generator and one clock
value, differing only in the two `gettimeofday` readings, leave the same state (buffer,
pointer, generator); when the block has room for the fill both return, the colour `c` of
the frame is computed without the readings, and the only difference is the reported time. -/
theorem modeset_draw_timing_not_control (gen : Nat → Nat → Nat) (now : Nat)
    (t1 t2 t1' t2' : Timeval) (s : State) :
    (modeset_draw gen ⟨now, t1, t2⟩ s).map Prod.fst
      = (modeset_draw gen ⟨now, t1', t2'⟩ s).map Prod.fst ∧
    (s.ptr + 786432 ≤ s.buf.length →
      ∃ (c : Channels) (s1 s' : State),
        step_colors gen (seed_colors gen now s).1 (seed_colors gen now s).2 = some (c, s1) ∧
        fill_pass c.r c.g c.b s1 = some s' ∧
        modeset_draw gen ⟨now, t1, t2⟩ s = some (s', elapsedTime t1 t2) ∧
        modeset_draw gen ⟨now, t1', t2'⟩ s = some (s', elapsedTime t1' t2')) := by
  constructor
  · simp only [modeset_draw]
    cases step_colors gen (seed_colors gen now s).1 (seed_colors gen now s).2 with
    | none => rfl
    | some p =>
      obtain ⟨c, s1⟩ := p
      simp only []
      cases fill_pass c.r c.g c.b s1 with
      | none => rfl
      | some s2 => rfl
  · intro hroom
    obtain ⟨c, t, hc, ht, _, hd⟩ := modeset_draw_run gen ⟨now, t1, t2⟩ s hroom
    obtain ⟨c', u, hc', hu, _, hd'⟩ := modeset_draw_run gen ⟨now, t1', t2'⟩ s hroom
    have hcc : c' = c := by
      have h := hc'.symm.trans hc
      simp only [Option.some.injEq, Prod.mk.injEq] at h
      exact h.1
    subst hcc
    have htu : u = t := Option.some.inj (hu.symm.trans ht)
    subst htu
    refine ⟨c', _, { u with ptr := s.ptr }, hc, ?_, hd, hd'⟩
    simp only [fill_pass, ht, Option.map_some']

/-- Witness of C11: a zeroed 786432-cell buffer, readings 0.25 ms apart in one run and
1000 ms apart in the other. -/
theorem modeset_draw_timing_not_control_witness :
    (0 : Nat) + 786432 ≤ (List.replicate 786432 0).length ∧
    elapsedTime ⟨0, 0⟩ ⟨0, 250⟩ ≠ elapsedTime ⟨5, 0⟩ ⟨6, 0⟩ ∧
    ∃ (c : Channels) (s1 s' : State),
      step_colors (fun _ k => 40 * k)
        (seed_colors (fun _ k => 40 * k) 7 ⟨List.replicate 786432 0, 0, 0, 0, []⟩).1
        (seed_colors (fun _ k => 40 * k) 7 ⟨List.replicate 786432 0, 0, 0, 0, []⟩).2
        = some (c, s1) ∧
      fill_pass c.r c.g c.b s1 = some s' ∧
      modeset_draw (fun _ k => 40 * k) ⟨7, ⟨0, 0⟩, ⟨0, 250⟩⟩
        ⟨List.replicate 786432 0, 0, 0, 0, []⟩ = some (s', elapsedTime ⟨0, 0⟩ ⟨0, 250⟩) ∧
      modeset_draw (fun _ k => 40 * k) ⟨7, ⟨5, 0⟩, ⟨6, 0⟩⟩
        ⟨List.replicate 786432 0, 0, 0, 0, []⟩ = some (s', elapsedTime ⟨5, 0⟩ ⟨6, 0⟩) :=
  ⟨le_of_eq (List.length_replicate _ _).symm, by norm_num [elapsedTime],
    (modeset_draw_timing_not_control (fun _ k => 40 * k) 7 ⟨0, 0⟩ ⟨0, 250⟩ ⟨5, 0⟩ ⟨6, 0⟩
      ⟨List.replicate 786432 0, 0, 0, 0, []⟩).2 (le_of_eq (List.length_replicate _ _).symm)⟩

/-- C14: on a block with room for the fill, `modeset_draw` returns; the nested loop
advances the pointer by exactly `1024 * 768` cells, writing the cells at offsets
`ptr, ..., ptr + 1024 * 768 - 1`; after the call the pointer equals its value on entry and
the block has the size it had; the same holds after any number of iterations of the loop
of `main`, so every frame writes the same region. -/
theorem modeset_draw_preserves_sink (gen : Nat → Nat → Nat) (inp : FrameInput)
    (inputs : List FrameInput) (s : State) (hroom : s.ptr + 786432 ≤ s.buf.length) :
    (∃ (c : Channels) (t s' : State) (e : ℚ),
      fill (pixel c.r c.g c.b) { s with seed := inp.now % 2 ^ 32, pos := 6 } = some t ∧
      t.ptr = s.ptr + 1024 * 768 ∧
      modeset_draw gen inp s = some (s', e) ∧
      s' = { t with ptr := s.ptr } ∧
      s'.ptr = s.ptr ∧
      s'.buf.length = s.buf.length ∧
      s'.writes.map WriteEvent.off
        = s.writes.map WriteEvent.off ++ (List.range (1024 * 768)).map (fun k => s.ptr + k)) ∧
    (∃ s'', main_loop gen inputs s = some s'' ∧ s''.ptr = s.ptr ∧
      s''.buf.length = s.buf.length) := by
  refine ⟨?_, main_loop_preserves gen inputs s hroom⟩
  obtain ⟨c, t, _, ht, hw, hd⟩ := modeset_draw_run gen inp s hroom
  obtain ⟨_, hp, hl, _, _, _, hwr⟩ := hw
  refine ⟨c, t, { t with ptr := s.ptr }, elapsedTime inp.t1 inp.t2, ht, hp, hd, rfl, rfl, hl, ?_⟩
  show t.writes.map WriteEvent.off = _
  rw [hwr, List.map_append, List.map_map]
  rfl

/-- Witness of C14: a zeroed block of exactly `1024 * 768` cells with the pointer at its
base, one frame and a run of three frames. -/
theorem modeset_draw_preserves_sink_witness :
    (List.replicate 786432 0).length = 1024 * 768 ∧
    (0 : Nat) + 786432 ≤ (List.replicate 786432 0).length ∧
    (∃ (c : Channels) (t s' : State) (e : ℚ),
      fill (pixel c.r c.g c.b)
        { (⟨List.replicate 786432 0, 0, 0, 0, []⟩ : State) with seed := 7 % 2 ^ 32, pos := 6 }
        = some t ∧
      t.ptr = 0 + 1024 * 768 ∧
      modeset_draw (fun _ k => 40 * k) ⟨7, ⟨0, 0⟩, ⟨0, 250⟩⟩
        ⟨List.replicate 786432 0, 0, 0, 0, []⟩ = some (s', e) ∧
      s' = { t with ptr := 0 } ∧
      s'.ptr = 0 ∧
      s'.buf.length = (List.replicate 786432 0).length ∧
      s'.writes.map WriteEvent.off
        = ([] : List WriteEvent).map WriteEvent.off
          ++ (List.range (1024 * 768)).map (fun k => 0 + k)) ∧
    (∃ s'', main_loop (fun _ k => 40 * k)
        [⟨7, ⟨0, 0⟩, ⟨0, 250⟩⟩, ⟨7, ⟨1, 0⟩, ⟨1, 900⟩⟩, ⟨8, ⟨2, 0⟩, ⟨3, 5⟩⟩]
        ⟨List.replicate 786432 0, 0, 0, 0, []⟩ = some s'' ∧ s''.ptr = 0 ∧
      s''.buf.length = (List.replicate 786432 0).length) :=
  ⟨List.length_replicate _ _, le_of_eq (List.length_replicate _ _).symm,
    modeset_draw_preserves_sink (fun _ k => 40 * k) ⟨7, ⟨0, 0⟩, ⟨0, 250⟩⟩
      [⟨7, ⟨0, 0⟩, ⟨0, 250⟩⟩, ⟨7, ⟨1, 0⟩, ⟨1, 900⟩⟩, ⟨8, ⟨2, 0⟩, ⟨3, 5⟩⟩]
      ⟨List.replicate 786432 0, 0, 0, 0, []⟩ (le_of_eq (List.length_replicate _ _).symm)⟩

/-- C16: with `rand()` a deterministic sequence fixed by the `srand` argument, two
calls of `modeset_draw` whose clock values give the same seed (in particular the same
`time(NULL)`), made on 1024 x 768 buffers with any contents, any generator state and any
history, both return and leave identical buffer contents. -/
theorem modeset_draw_colour_from_seed (gen : Nat → Nat → Nat) (inp1 inp2 : FrameInput)
    (s1 s2 : State) (hseed : inp1.now % 2 ^ 32 = inp2.now % 2 ^ 32)
    (hlen1 : s1.buf.length = 786432) (hptr1 : s1.ptr = 0)
    (hlen2 : s2.buf.length = 786432) (hptr2 : s2.ptr = 0) :
    ∃ (t1 t2 : State) (e1 e2 : ℚ),
      modeset_draw gen inp1 s1 = some (t1, e1) ∧
      modeset_draw gen inp2 s2 = some (t2, e2) ∧
      t1.buf = t2.buf := by
  obtain ⟨c, t1, t2, h1, h2, hb1, hb2⟩ :=
    modeset_draw_same_seed gen inp1 inp2 s1 s2 hseed hlen1 hptr1 hlen2 hptr2
  exact ⟨t1, t2, _, _, h1, h2, by rw [hb1, hb2]⟩

/-- Witness of C16: clock value 7 in both calls; a zeroed buffer with a fresh generator
against a buffer of `0xFFFFFFFF` cells with the generator 11 draws after `srand(3)`. -/
theorem modeset_draw_colour_from_seed_witness :
    7 % 2 ^ 32 = 7 % 2 ^ 32 ∧
    (List.replicate 786432 0).length = 786432 ∧
    (List.replicate 786432 4294967295).length = 786432 ∧
    ∃ (t1 t2 : State) (e1 e2 : ℚ),
      modeset_draw (fun sd k => sd + 40 * k) ⟨7, ⟨0, 0⟩, ⟨0, 250⟩⟩
        ⟨List.replicate 786432 0, 0, 0, 0, []⟩ = some (t1, e1) ∧
      modeset_draw (fun sd k => sd + 40 * k) ⟨7, ⟨5, 0⟩, ⟨6, 0⟩⟩
        ⟨List.replicate 786432 4294967295, 0, 3, 11, []⟩ = some (t2, e2) ∧
      t1.buf = t2.buf :=
  ⟨rfl, List.length_replicate _ _, List.length_replicate _ _,
    modeset_draw_colour_from_seed (fun sd k => sd + 40 * k) ⟨7, ⟨0, 0⟩, ⟨0, 250⟩⟩
      ⟨7, ⟨5, 0⟩, ⟨6, 0⟩⟩ ⟨List.replicate 786432 0, 0, 0, 0, []⟩
      ⟨List.replicate 786432 4294967295, 0, 3, 11, []⟩ rfl
      (List.length_replicate _ _) rfl (List.length_replicate _ _) rfl⟩

/-- C17: in a call of `modeset_draw` the channels handed to `next_color` are
`rand() % 0xff`, so at most 254, with all three flags ascending; the three calls are
therefore ascending calls (the factor `-1` and the test `next > cur` are not used), and
each value `c` written in the frame satisfies `seed ≤ c ≤ min 255 (seed + bound - 1)` for
the bounds 20, 10 and 5. -/
theorem modeset_draw_seeds_ascending (gen : Nat → Nat → Nat) (inp : FrameInput) (s : State)
    (hlen : s.buf.length = 786432) (hptr : s.ptr = 0) :
    ∃ (c0 c : Channels) (s0 s1 s' : State) (e : ℚ),
      seed_colors gen inp.now s = (c0, s0) ∧
      (c0.r_up = true ∧ c0.g_up = true ∧ c0.b_up = true) ∧
      (c0.r = gen (inp.now % 2 ^ 32) 0 % 0xff ∧ c0.g = gen (inp.now % 2 ^ 32) 1 % 0xff ∧
        c0.b = gen (inp.now % 2 ^ 32) 2 % 0xff) ∧
      (c0.r ≤ 254 ∧ c0.g ≤ 254 ∧ c0.b ≤ 254) ∧
      next_color true c0.r 20 (gen (inp.now % 2 ^ 32) 3) = some (c.r_up, c.r) ∧
      next_color true c0.g 10 (gen (inp.now % 2 ^ 32) 4) = some (c.g_up, c.g) ∧
      next_color true c0.b 5 (gen (inp.now % 2 ^ 32) 5) = some (c.b_up, c.b) ∧
      step_colors gen c0 s0 = some (c, s1) ∧
      modeset_draw gen inp s = some (s', e) ∧
      s'.buf = List.replicate 786432 (pixel c.r c.g c.b) ∧
      (c0.r ≤ c.r ∧ c.r ≤ min 255 (c0.r + 20 - 1)) ∧
      (c0.g ≤ c.g ∧ c.g ≤ min 255 (c0.g + 10 - 1)) ∧
      (c0.b ≤ c.b ∧ c.b ≤ min 255 (c0.b + 5 - 1)) := by
  obtain ⟨ru, R, hr, hR1, hR2, hR3⟩ :=
    next_color_up_bounds (gen (inp.now % 2 ^ 32) 0 % 0xff) 20 (gen (inp.now % 2 ^ 32) 3)
      (by omega) (by decide)
  obtain ⟨gu, G, hg, hG1, hG2, hG3⟩ :=
    next_color_up_bounds (gen (inp.now % 2 ^ 32) 1 % 0xff) 10 (gen (inp.now % 2 ^ 32) 4)
      (by omega) (by decide)
  obtain ⟨bu, B, hb, hB1, hB2, hB3⟩ :=
    next_color_up_bounds (gen (inp.now % 2 ^ 32) 2 % 0xff) 5 (gen (inp.now % 2 ^ 32) 5)
      (by omega) (by decide)
  have hstep := step_colors_eq gen (seed_colors gen inp.now s).1 (seed_colors gen inp.now s).2
    hr hg hb
  obtain ⟨t, ht, hbuf, _⟩ := fill_pass_full R G B
    { (seed_colors gen inp.now s).2 with pos := (seed_colors gen inp.now s).2.pos + 1 + 1 + 1 }
    hlen hptr
  refine ⟨(seed_colors gen inp.now s).1, ⟨R, G, B, ru, gu, bu⟩, (seed_colors gen inp.now s).2,
    _, t, elapsedTime inp.t1 inp.t2, rfl, ⟨rfl, rfl, rfl⟩, ⟨rfl, rfl, rfl⟩, ?_, hr, hg, hb,
    hstep, ?_, hbuf, ⟨hR1, ?_⟩, ⟨hG1, ?_⟩, ⟨hB1, ?_⟩⟩
  · have h0 : (seed_colors gen inp.now s).1.r = gen (inp.now % 2 ^ 32) 0 % 0xff := rfl
    have h1 : (seed_colors gen inp.now s).1.g = gen (inp.now % 2 ^ 32) 1 % 0xff := rfl
    have h2 : (seed_colors gen inp.now s).1.b = gen (inp.now % 2 ^ 32) 2 % 0xff := rfl
    rw [h0, h1, h2]
    omega
  · simp only [modeset_draw, hstep, ht]
  · show R ≤ min 255 (gen (inp.now % 2 ^ 32) 0 % 0xff + 20 - 1)
    exact le_min hR2 (by omega)
  · show G ≤ min 255 (gen (inp.now % 2 ^ 32) 1 % 0xff + 10 - 1)
    exact le_min hG2 (by omega)
  · show B ≤ min 255 (gen (inp.now % 2 ^ 32) 2 % 0xff + 5 - 1)
    exact le_min hB2 (by omega)

/-- Witness of C17: a zeroed buffer, clock value 7, a generator whose draws after
`srand(7)` are 254, 294, 334, 374, 414, 454: seeds 254, 39, 79 and colour (254, 43, 83). -/
theorem modeset_draw_seeds_ascending_witness :
    (List.replicate 786432 0).length = 786432 ∧
    next_color true (254 % 0xff) 20 374 = some (false, 254) ∧
    next_color true (294 % 0xff) 10 414 = some (true, 43) ∧
    next_color true (334 % 0xff) 5 454 = some (true, 83) ∧
    ∃ (c0 c : Channels) (s0 s1 s' : State) (e : ℚ),
      seed_colors (fun sd k => 247 + sd + 40 * k) 7 ⟨List.replicate 786432 0, 0, 0, 0, []⟩
        = (c0, s0) ∧
      (c0.r_up = true ∧ c0.g_up = true ∧ c0.b_up = true) ∧
      (c0.r = (fun sd k => 247 + sd + 40 * k) (7 % 2 ^ 32) 0 % 0xff ∧
        c0.g = (fun sd k => 247 + sd + 40 * k) (7 % 2 ^ 32) 1 % 0xff ∧
        c0.b = (fun sd k => 247 + sd + 40 * k) (7 % 2 ^ 32) 2 % 0xff) ∧
      (c0.r ≤ 254 ∧ c0.g ≤ 254 ∧ c0.b ≤ 254) ∧
      next_color true c0.r 20 ((fun sd k => 247 + sd + 40 * k) (7 % 2 ^ 32) 3)
        = some (c.r_up, c.r) ∧
      next_color true c0.g 10 ((fun sd k => 247 + sd + 40 * k) (7 % 2 ^ 32) 4)
        = some (c.g_up, c.g) ∧
      next_color true c0.b 5 ((fun sd k => 247 + sd + 40 * k) (7 % 2 ^ 32) 5)
        = some (c.b_up, c.b) ∧
      step_colors (fun sd k => 247 + sd + 40 * k) c0 s0 = some (c, s1) ∧
      modeset_draw (fun sd k => 247 + sd + 40 * k) ⟨7, ⟨0, 0⟩, ⟨0, 250⟩⟩
        ⟨List.replicate 786432 0, 0, 0, 0, []⟩ = some (s', e) ∧
      s'.buf = List.replicate 786432 (pixel c.r c.g c.b) ∧
      (c0.r ≤ c.r ∧ c.r ≤ min 255 (c0.r + 20 - 1)) ∧
      (c0.g ≤ c.g ∧ c.g ≤ min 255 (c0.g + 10 - 1)) ∧
      (c0.b ≤ c.b ∧ c.b ≤ min 255 (c0.b + 5 - 1)) :=
  ⟨List.length_replicate _ _, by decide, by decide, by decide,
    modeset_draw_seeds_ascending (fun sd k => 247 + sd + 40 * k) ⟨7, ⟨0, 0⟩, ⟨0, 250⟩⟩
      ⟨List.replicate 786432 0, 0, 0, 0, []⟩ (List.length_replicate _ _) rfl⟩

end Modeset
